import Mathlib

/-!
Verification of the LookerBot OSINT pipeline (Python sources: `utils.py`,
`agent.py`, `tools.py`, `main.py`) via a shallow embedding in Lean 4.

Modelling conventions:
* Python dicts are association lists `List (String × α)` with Python's
  insertion semantics (`pydictInsert`: overwrite in place when the key is
  present, append otherwise) and key lookup (`pydictGet`).
* Python exceptions raised by an external collaborator (whois lookup,
  subprocess, a worker future) are modelled as `Except String α` values;
  a `try/except` block matches on the `Except`.
* External collaborators (the whois library, the LLM oracle `agent.run`,
  the trufflehog subprocess, `json.loads`, the README fetch) are
  parameters of the embedded functions: the pipeline's behaviour is
  proved for every possible collaborator behaviour.
* Thread pools fan out a pure per-item function over the items and fan in
  a dict keyed by item; since each item's result depends only on that
  item, the resulting dict is completion-order independent. Where the
  Python loop iterates over `as_completed` futures we either fold in
  submission order (a particular completion order, values being
  order-independent) or take the completion order as an explicit
  parameter and quantify over all orders.
-/

namespace LookerBot

/-! ## Python dict model -/

/-- Lookup `m[k]` (as `Option`): value of the first entry whose key is `k`. -/
def pydictGet (k : String) (m : List (String × α)) : Option α :=
  (m.find? (fun p => p.1 == k)).map (fun p => p.2)

/-- Python dict assignment `m[k] = v`: overwrite in place when the key is
present, append a new entry otherwise. -/
def pydictInsert (k : String) (v : α) (m : List (String × α)) : List (String × α) :=
  if m.any (fun p => p.1 == k) then
    m.map (fun p => if p.1 == k then (k, v) else p)
  else
    m ++ [(k, v)]

/-- Python in-place update `m[k].f = ...`: apply `f` to the value at key `k`
(no-op on other entries; `k` is present wherever the source loops use this). -/
def pydictUpdate (k : String) (f : α → α) (m : List (String × α)) : List (String × α) :=
  m.map (fun p => if p.1 == k then (p.1, f p.2) else p)

/-- The keys of a dict, in insertion order. -/
def pydictKeys (m : List (String × α)) : List String :=
  m.map (fun p => p.1)

theorem pydictGet_cons (k : String) (p : String × α) (m : List (String × α)) :
    pydictGet k (p :: m) = if p.1 = k then some p.2 else pydictGet k m := by
  by_cases h : p.1 = k
  · have hb : (p.1 == k) = true := beq_iff_eq.mpr h
    simp [pydictGet, List.find?, hb, h]
  · have hb : (p.1 == k) = false := beq_eq_false_iff_ne.mpr h
    simp [pydictGet, List.find?, hb, h]

theorem pydictGet_append (k : String) (m₁ m₂ : List (String × α)) :
    pydictGet k (m₁ ++ m₂) =
      match pydictGet k m₁ with
      | some v => some v
      | none => pydictGet k m₂ := by
  induction m₁ with
  | nil => simp [pydictGet]
  | cons p m₁ ih =>
    by_cases hk : p.1 = k
    · simp [pydictGet_cons, hk]
    · simpa [pydictGet_cons, hk] using ih

theorem pydictGet_overwrite (k k' : String) (v : α) (m : List (String × α)) :
    pydictGet k (m.map (fun p => if p.1 == k' then (k', v) else p)) =
      if k = k' ∧ (pydictGet k' m).isSome then some v else pydictGet k m := by
  induction m with
  | nil => simp [pydictGet]
  | cons p m ih =>
    by_cases hk : p.1 = k'
    · subst hk
      by_cases hpk : p.1 = k
      · subst hpk
        simp [pydictGet_cons]
      · have hkk : ¬ (k = p.1) := fun hc => hpk hc.symm
        simp only [List.map_cons, beq_self_eq_true, if_true, pydictGet_cons]
        rw [if_neg hpk, if_neg hpk, ih]
        simp [hkk]
    · have hb : (p.1 == k') = false := beq_eq_false_iff_ne.mpr hk
      by_cases hpk : p.1 = k
      · subst hpk
        have hkk : ¬ (p.1 = k') := hk
        simp only [List.map_cons, hb, Bool.false_eq_true, if_false, pydictGet_cons]
        simp [hkk]
      · simp only [List.map_cons, hb, Bool.false_eq_true, if_false, pydictGet_cons]
        rw [if_neg hpk, if_neg hpk, ih, if_neg hk]

theorem pydictGet_isSome_of_any (k : String) (m : List (String × α))
    (h : m.any (fun p => p.1 == k) = true) : (pydictGet k m).isSome := by
  induction m with
  | nil => simp at h
  | cons p m ih =>
    by_cases hk : p.1 = k
    · simp [pydictGet_cons, hk]
    · rw [pydictGet_cons]
      simp only [hk, if_false]
      apply ih
      simpa [List.any_cons, hk] using h

theorem pydictGet_none_of_not_any (k : String) (m : List (String × α))
    (h : m.any (fun p => p.1 == k) = false) : pydictGet k m = none := by
  induction m with
  | nil => rfl
  | cons p m ih =>
    simp only [List.any_cons, Bool.or_eq_false_iff] at h
    rw [pydictGet_cons]
    have hk : ¬ (p.1 = k) := by simpa using h.1
    simp only [hk, if_false]
    exact ih h.2

theorem pydictGet_insert_self (k : String) (v : α) (m : List (String × α)) :
    pydictGet k (pydictInsert k v m) = some v := by
  unfold pydictInsert
  by_cases h : m.any (fun p => p.1 == k)
  · simp only [h, if_true]
    rw [pydictGet_overwrite]
    simp [pydictGet_isSome_of_any k m h]
  · simp only [Bool.not_eq_true] at h
    simp only [h, Bool.false_eq_true, if_false]
    rw [pydictGet_append, pydictGet_none_of_not_any k m h]
    simp [pydictGet_cons]

theorem pydictGet_insert_ne (k k' : String) (v : α) (m : List (String × α))
    (hne : k ≠ k') :
    pydictGet k (pydictInsert k' v m) = pydictGet k m := by
  unfold pydictInsert
  by_cases h : m.any (fun p => p.1 == k')
  · simp only [h, if_true]
    rw [pydictGet_overwrite]
    simp [hne]
  · simp only [Bool.not_eq_true] at h
    simp only [h, Bool.false_eq_true, if_false]
    rw [pydictGet_append]
    rcases hsome : pydictGet k m with _ | v₀
    · rw [pydictGet_cons]
      simp [Ne.symm hne, pydictGet]
    · simp

theorem pydictKeys_insert_nodup (k : String) (v : α) (m : List (String × α))
    (h : (pydictKeys m).Nodup) : (pydictKeys (pydictInsert k v m)).Nodup := by
  unfold pydictInsert
  by_cases hin : m.any (fun p => p.1 == k)
  · simp only [hin, if_true]
    have : pydictKeys (m.map (fun p => if p.1 == k then (k, v) else p)) = pydictKeys m := by
      unfold pydictKeys
      rw [List.map_map]
      apply List.map_congr_left
      intro p _
      by_cases hp : p.1 = k
      · simp [Function.comp, beq_iff_eq.mpr hp, hp]
      · simp [Function.comp, beq_eq_false_iff_ne.mpr hp]
    rw [this]; exact h
  · simp only [Bool.not_eq_true] at hin
    simp only [hin, Bool.false_eq_true, if_false]
    unfold pydictKeys
    rw [List.map_append]
    simp only [List.map_cons, List.map_nil]
    rw [List.nodup_append]
    refine ⟨h, List.nodup_singleton k, ?_⟩
    intro a ha
    simp only [List.mem_singleton]
    intro hak
    subst hak
    rcases List.mem_map.mp ha with ⟨p, hp, hpk⟩
    subst hpk
    have hany : m.any (fun q => q.1 == p.1) = true :=
      List.any_eq_true.mpr ⟨p, hp, by simp⟩
    rw [hin] at hany
    exact Bool.false_ne_true hany

/-! ## Record Enricher: WHOIS lookup (`utils.py`, `get_whois_data` /
`fetch_whois_concurrently`) -/

/-- The value stored for a domain in the WHOIS report: either the object
returned by `whois.whois(domain)` (opaque payload of type `α`), or the string
sentinel stored by the `except` clause of `get_whois_data`. -/
inductive WhoisValue (α : Type) where
  | record (w : α)
  | sentinel (msg : String)
deriving DecidableEq, Repr

/-- `utils.get_whois_data`: look the domain up, returning
`(domain, whois_data)`; on any exception return the pair
`(domain, "ERROR - MANUALLY VERIFY")`. The external `whois.whois` call is the
parameter `whoisLookup`; an exception it raises is an `Except.error`. -/
def get_whois_data (whoisLookup : String → Except String α) (domain : String) :
    String × WhoisValue α :=
  match whoisLookup domain with
  | .ok w => (domain, .record w)
  | .error _ => (domain, .sentinel "ERROR - MANUALLY VERIFY")

/-- `utils.fetch_whois_concurrently`: submit `get_whois_data` for every domain
to a pool (`max_workers=3`) and collect `domain_whois_report[domain] = whois_data`
as futures complete. Each future's value depends only on its own domain, so the
resulting dict is independent of completion order; we fold in submission
order. -/
def fetch_whois_concurrently (whoisLookup : String → Except String α)
    (initial_domains : List String) : List (String × WhoisValue α) :=
  initial_domains.foldl
    (fun domain_whois_report domain =>
      let r := get_whois_data whoisLookup domain
      pydictInsert r.1 r.2 domain_whois_report)
    []

theorem fetch_whois_foldl_get (whoisLookup : String → Except String α)
    (domains : List String) (acc : List (String × WhoisValue α)) (d : String) :
    pydictGet d
      (domains.foldl
        (fun report domain =>
          let r := get_whois_data whoisLookup domain
          pydictInsert r.1 r.2 report) acc) =
      if d ∈ domains then some (get_whois_data whoisLookup d).2
      else pydictGet d acc := by
  induction domains generalizing acc with
  | nil => simp
  | cons d₀ rest ih =>
    rw [List.foldl_cons, ih]
    have hkey : (get_whois_data whoisLookup d₀).1 = d₀ := by
      unfold get_whois_data
      rcases whoisLookup d₀ with _ | _ <;> rfl
    by_cases hmem : d ∈ rest
    · simp [hmem, List.mem_cons]
    · by_cases hd : d = d₀
      · subst hd
        simp only [hmem, if_false, List.mem_cons, true_or, if_true]
        rw [hkey, pydictGet_insert_self]
      · have : ¬ d ∈ d₀ :: rest := by
          simp [List.mem_cons, hd, hmem]
        simp only [hmem, if_false, this, if_false]
        rw [hkey, pydictGet_insert_ne d d₀ _ acc hd]

/-- Key/value characterization of the WHOIS report. -/
theorem fetch_whois_get (whoisLookup : String → Except String α)
    (domains : List String) (d : String) :
    pydictGet d (fetch_whois_concurrently whoisLookup domains) =
      if d ∈ domains then some (get_whois_data whoisLookup d).2 else none := by
  unfold fetch_whois_concurrently
  rw [fetch_whois_foldl_get]
  rfl

theorem fetch_whois_keys_nodup (whoisLookup : String → Except String α)
    (domains : List String) :
    (pydictKeys (fetch_whois_concurrently whoisLookup domains)).Nodup := by
  unfold fetch_whois_concurrently
  have : ∀ acc : List (String × WhoisValue α), (pydictKeys acc).Nodup →
      (pydictKeys (domains.foldl
        (fun report domain =>
          let r := get_whois_data whoisLookup domain
          pydictInsert r.1 r.2 report) acc)).Nodup := by
    induction domains with
    | nil => intro acc h; exact h
    | cons d rest ih =>
      intro acc h
      rw [List.foldl_cons]
      exact ih _ (pydictKeys_insert_nodup _ _ _ h)
  exact this [] (by simp [pydictKeys])

/-! ## Confidence Classifier (`agent.py`, `Agent._domain_osint` /
`Agent._github_osint`, the per-candidate verdict loops)

The oracle is `self.agent.run(prompt)`; its response is untyped. The loop body

```python
try:
    confidence_assessment = dict(confidence_assessment)
    confidence = confidence_assessment[domain].get("confidence")
    reason = confidence_assessment[domain].get("reason")
    if confidence in ("yes", "maybe"):
        final_report[domain] = {"confidence": confidence, "reason": reason, ...}
except Exception as e:
    final_report[domain] = {"confidence": "ERROR - MANUALLY VERIFY",
                            "reason": "ERROR - MANUALLY VERIFY", ...}
```

is modelled by the following inductives: `dict(x)` raises on a value not
convertible to a mapping (`OracleResponse.notMapping`); `x[key]` raises
`KeyError` when the key is absent; `.get` raises `AttributeError` when the
inner value is not itself a mapping (`OracleInner.nonObj`); the inner
mapping's optional `confidence` / `reason` fields are the two `Option`s of
`OracleInner.obj`. -/

/-- The value an oracle mapping associates to a candidate key. -/
inductive OracleInner where
  | obj (confidence : Option String) (reason : Option String)
  | nonObj
deriving DecidableEq, Repr

/-- The oracle's whole response. -/
inductive OracleResponse where
  | mapping (entries : List (String × OracleInner))
  | notMapping
deriving DecidableEq, Repr

/-- Extraction step of the `try` block: either the `(confidence, reason)`
pair read off a well-formed response, or the exception that the block
raises (`Except.error`). -/
def pullConfidence (resp : OracleResponse) (key : String) :
    Except Unit (Option String × Option String) :=
  match resp with
  | .notMapping => .error ()
  | .mapping entries =>
    match pydictGet key entries with
    | none => .error ()
    | some .nonObj => .error ()
    | some (.obj c r) => .ok (c, r)

/-- The error sentinel the `except` branch stores for both fields. -/
def errSentinel : String := "ERROR - MANUALLY VERIFY"

/-- The verdict the classifier loop reaches for one candidate: either the
stated `(confidence, reason)` extracted from a well-formed response, or the
error verdict assigned when extraction raised. -/
inductive Verdict where
  | stated (confidence : Option String) (reason : Option String)
  | error
deriving DecidableEq, Repr

/-- The verdict assigned to `key` given the oracle response. -/
def verdictOf (resp : OracleResponse) (key : String) : Verdict :=
  match pullConfidence resp key with
  | .ok (c, r) => .stated c r
  | .error _ => .error

/-- A verdict survives the `yes`/`maybe`/`error` filter of the loop body. -/
def Verdict.retained : Verdict → Bool
  | .stated c _ => c = some "yes" ∨ c = some "maybe"
  | .error => true

/-- One domain entry of the final report of `_domain_osint`:
`{"confidence": ..., "reason": ..., "whois": ...}`. -/
structure DomainEntry (α : Type) where
  confidence : String
  reason : Option String
  whois : WhoisValue α
deriving DecidableEq, Repr

/-- The loop body of `_domain_osint` for one candidate: the entry stored in
`final_report[domain]`, or `none` when the candidate is skipped. -/
def domainVerdictEntry (resp : OracleResponse) (domain : String)
    (whois_data : WhoisValue α) : Option (DomainEntry α) :=
  match pullConfidence resp domain with
  | .error _ => some ⟨errSentinel, some errSentinel, whois_data⟩
  | .ok (c, r) =>
    match c with
    | some cv => if cv = "yes" ∨ cv = "maybe" then some ⟨cv, r, whois_data⟩ else none
    | none => none

/-- The reasoning-pass loop of `_domain_osint`, folding over
`domain_whois_report.items()`. The oracle (`agent.run` on the prompt built
from the domain, its whois data and the organization context) is the
parameter `oracle`. -/
def domainReasoningPass (oracle : String → WhoisValue α → OracleResponse)
    (domain_whois_report : List (String × WhoisValue α)) :
    List (String × DomainEntry α) :=
  domain_whois_report.foldl
    (fun final_report p =>
      match domainVerdictEntry (oracle p.1 p.2) p.1 p.2 with
      | some entry => pydictInsert p.1 entry final_report
      | none => final_report)
    []

/-- `Agent._domain_osint`, from the discovered domain list on: WHOIS
enrichment (`fetch_whois_concurrently`) followed by the sequential
reasoning pass. Discovery itself (`agent.run` searches) supplies
`initial_domains` and is out of scope. -/
def domain_osint (whoisLookup : String → Except String α)
    (oracle : String → WhoisValue α → OracleResponse)
    (initial_domains : List String) : List (String × DomainEntry α) :=
  domainReasoningPass oracle (fetch_whois_concurrently whoisLookup initial_domains)

theorem reasoningPass_foldl_get (oracle : String → WhoisValue α → OracleResponse)
    (report : List (String × WhoisValue α)) (acc : List (String × DomainEntry α))
    (d : String) (hnd : (pydictKeys report).Nodup) :
    pydictGet d
      (report.foldl
        (fun final_report p =>
          match domainVerdictEntry (oracle p.1 p.2) p.1 p.2 with
          | some entry => pydictInsert p.1 entry final_report
          | none => final_report) acc) =
      match pydictGet d report with
      | some w =>
        match domainVerdictEntry (oracle d w) d w with
        | some entry => some entry
        | none => pydictGet d acc
      | none => pydictGet d acc := by
  induction report generalizing acc with
  | nil => rfl
  | cons p rest ih =>
    have hnd' : (pydictKeys rest).Nodup := by
      unfold pydictKeys at hnd ⊢
      exact (List.nodup_cons.mp hnd).2
    rw [List.foldl_cons, ih _ hnd']
    by_cases hd : p.1 = d
    · subst hd
      have hrest : pydictGet p.1 rest = none := by
        have hnotin : p.1 ∉ pydictKeys rest := (List.nodup_cons.mp hnd).1
        apply pydictGet_none_of_not_any
        rw [Bool.eq_false_iff]
        intro hany
        rcases List.any_eq_true.mp hany with ⟨q, hq, hqk⟩
        exact hnotin (List.mem_map.mpr ⟨q, hq, by simpa using hqk⟩)
      simp only [pydictGet_cons, hrest, if_pos rfl]
      cases hv : domainVerdictEntry (oracle p.1 p.2) p.1 p.2 with
      | none => simp [hv]
      | some entry => simp [hv, pydictGet_insert_self]
    · rw [pydictGet_cons, if_neg hd]
      cases hv : domainVerdictEntry (oracle p.1 p.2) p.1 p.2 with
      | none => simp only [hv]
      | some entry =>
        simp only [hv, pydictGet_insert_ne d p.1 entry acc (fun hc => hd hc.symm)]

/-- Per-candidate characterization of the reasoning pass (on a report with
distinct keys, as produced by the whois stage). -/
theorem reasoningPass_get (oracle : String → WhoisValue α → OracleResponse)
    (report : List (String × WhoisValue α)) (d : String)
    (hnd : (pydictKeys report).Nodup) :
    pydictGet d (domainReasoningPass oracle report) =
      match pydictGet d report with
      | some w => domainVerdictEntry (oracle d w) d w
      | none => none := by
  unfold domainReasoningPass
  rw [reasoningPass_foldl_get oracle report [] d hnd]
  cases hget : pydictGet d report with
  | none => rfl
  | some w =>
    simp only
    cases hdve : domainVerdictEntry (oracle d w) d w <;> simp [hdve, pydictGet]

/-- End-to-end characterization of `_domain_osint` at one candidate. -/
theorem domain_osint_get (whoisLookup : String → Except String α)
    (oracle : String → WhoisValue α → OracleResponse)
    (initial_domains : List String) (d : String) :
    pydictGet d (domain_osint whoisLookup oracle initial_domains) =
      if d ∈ initial_domains then
        domainVerdictEntry (oracle d (get_whois_data whoisLookup d).2) d
          (get_whois_data whoisLookup d).2
      else none := by
  unfold domain_osint
  rw [reasoningPass_get oracle _ d (fetch_whois_keys_nodup whoisLookup initial_domains)]
  rw [fetch_whois_get]
  by_cases hmem : d ∈ initial_domains
  · simp [hmem]
  · simp [hmem]

/-! ## Tool Scanner (`utils.py`, `scan_repo_with_trufflehog` / `scan_repos`) -/

/-- ASCII portion of Python's whitespace (`str.strip`, regex `\s`). -/
def pyIsSpace (c : Char) : Bool :=
  c = ' ' || c = '\t' || c = '\n' || c = '\r' || c = '\x0b' || c = '\x0c'

/-- Python `str.strip()` on the ASCII range: drop whitespace from both
ends. -/
def pyStrip (s : List Char) : List Char :=
  ((s.dropWhile pyIsSpace).reverse.dropWhile pyIsSpace).reverse

/-- Python `str.split(sep)` for a one-character separator: split at every
occurrence, keeping empty pieces (`"".split(sep) == [""]`). -/
def pySplit (sep : Char) : List Char → List (List Char)
  | [] => [[]]
  | c :: cs =>
    if c = sep then [] :: pySplit sep cs
    else
      match pySplit sep cs with
      | [] => [[c]]
      | l :: ls => (c :: l) :: ls

/-- The completed-subprocess value returned by `subprocess.run(...)`. -/
structure ProcResult where
  returncode : Int
  stdout : String
  stderr : String

/-- Platform-specific executable selection at the top of
`scan_repo_with_trufflehog`. -/
def trufflehogCommand (os : String) : String :=
  if os.toLower = "windows" ∨ os.toLower = "win" then "trufflehog.exe" else "trufflehog"

/-- The line-parsing loop of `scan_repo_with_trufflehog`: split the stripped
standard output on newlines, and for each non-empty line try `json.loads`
(the external parser is the parameter `parse`; a `JSONDecodeError` is
`none`), appending successful parses and skipping failures. -/
def parseTrufflehogOutput (parse : String → Option F) (stdout : String) : List F :=
  ((pySplit '\n' (pyStrip stdout.toList)).map String.mk).foldl
    (fun findings line =>
      if line ≠ "" then
        match parse line with
        | some v => findings ++ [v]
        | none => findings
      else findings)
    []

/-- `utils.scan_repo_with_trufflehog`: run the trufflehog subprocess on the
repo URL (the external process is the parameter `runTool`, taking the
command name and the URL); on a non-zero exit code return `[]`, otherwise
parse the line-delimited JSON output. -/
def scan_repo_with_trufflehog (runTool : String → String → ProcResult)
    (parse : String → Option F) (url : String) (os : String) : List F :=
  let command := trufflehogCommand os
  let result := runTool command url
  if result.returncode ≠ 0 then []
  else parseTrufflehogOutput parse result.stdout

/-- The loop body of `parseTrufflehogOutput` equals an in-order
`filterMap`: each line is parsed independently, failures are skipped, and
successful parses appear in input order. -/
theorem parseTrufflehogOutput_eq_filterMap (parse : String → Option F)
    (stdout : String) :
    parseTrufflehogOutput parse stdout =
      ((pySplit '\n' (pyStrip stdout.toList)).map String.mk).filterMap
        (fun line => if line ≠ "" then parse line else none) := by
  unfold parseTrufflehogOutput
  generalize (pySplit '\n' (pyStrip stdout.toList)).map String.mk = lines
  have : ∀ acc : List F,
      lines.foldl
        (fun findings line =>
          if line ≠ "" then
            match parse line with
            | some v => findings ++ [v]
            | none => findings
          else findings) acc =
      acc ++ lines.filterMap (fun line => if line ≠ "" then parse line else none) := by
    induction lines with
    | nil => intro acc; simp
    | cons l rest ih =>
      intro acc
      rw [List.foldl_cons, ih, List.filterMap_cons]
      by_cases hl : l = ""
      · simp [hl]
      · simp only [hl, ne_eq, not_false_eq_true, if_pos]
        cases parse l with
        | none => simp [hl]
        | some v => simp [hl]
    -- each line contributes independently
  rw [this []]
  simp

/-- The value stored in `entry["trufflehog_findings"]` by `scan_repos`:
either the (non-empty) findings list, or the empty dict `{}` stored when the
scan produced no findings or the worker raised. -/
inductive FindingsField (F : Type) where
  | results (findings : List F)
  | emptyDict
deriving DecidableEq, Repr

/-- The `try/except` body of the `scan_repos` loop for one repo:
`findings = future.result()` (an exception is `Except.error`), then
`findings if findings else {}`. -/
def scanStepValue (outcome : Except String (List F)) : FindingsField F :=
  match outcome with
  | .ok findings =>
    match findings with
    | [] => .emptyDict
    | f :: fs => .results (f :: fs)
  | .error _ => .emptyDict

/-- A repo entry of the GitHub report: `{"confidence": ..., "reason": ...}`
as built by `_github_osint`, with the `trufflehog_findings` field that
`scan_repos` later assigns (`none` while the field is absent). -/
structure GithubEntry (F : Type) where
  confidence : String
  reason : Option String
  trufflehog_findings : Option (FindingsField F)
deriving DecidableEq, Repr

/-- `utils.scan_repos`: fan `scan_repo_with_trufflehog` out over the keys of
`repos` and, as each future completes (completion order is the explicit
parameter `order`, a permutation of the keys in any real run), store the
findings field into the existing entry, in place. -/
def scan_repos (outcome : String → Except String (List F)) (order : List String)
    (repos : List (String × GithubEntry F)) : List (String × GithubEntry F) :=
  order.foldl
    (fun repos repo =>
      pydictUpdate repo
        (fun e => { e with trufflehog_findings := some (scanStepValue (outcome repo)) })
        repos)
    repos

theorem pydictGet_update_self (k : String) (f : α → α) (m : List (String × α)) :
    pydictGet k (pydictUpdate k f m) = (pydictGet k m).map f := by
  induction m with
  | nil => rfl
  | cons p m ih =>
    unfold pydictUpdate at ih ⊢
    by_cases hp : p.1 = k
    · have hb : (p.1 == k) = true := beq_iff_eq.mpr hp
      simp only [List.map_cons, hb, if_true]
      rw [pydictGet_cons, pydictGet_cons, if_pos hp, if_pos hp]
      rfl
    · have hb : (p.1 == k) = false := beq_eq_false_iff_ne.mpr hp
      simp only [List.map_cons, hb, Bool.false_eq_true, if_false]
      rw [pydictGet_cons, pydictGet_cons, if_neg hp, if_neg hp, ih]

theorem pydictGet_update_ne (k k' : String) (f : α → α) (m : List (String × α))
    (hne : k ≠ k') :
    pydictGet k (pydictUpdate k' f m) = pydictGet k m := by
  induction m with
  | nil => rfl
  | cons p m ih =>
    unfold pydictUpdate at ih ⊢
    by_cases hp : p.1 = k'
    · have hb : (p.1 == k') = true := beq_iff_eq.mpr hp
      have hpk : ¬ p.1 = k := by rw [hp]; exact fun hc => hne hc.symm
      simp only [List.map_cons, hb, if_true]
      rw [pydictGet_cons, pydictGet_cons, if_neg hpk, if_neg hpk, ih]
    · have hb : (p.1 == k') = false := beq_eq_false_iff_ne.mpr hp
      simp only [List.map_cons, hb, Bool.false_eq_true, if_false]
      rw [pydictGet_cons, pydictGet_cons]
      by_cases hpk : p.1 = k
      · rw [if_pos hpk, if_pos hpk]
      · rw [if_neg hpk, if_neg hpk, ih]

theorem pydictKeys_update (k : String) (f : α → α) (m : List (String × α)) :
    pydictKeys (pydictUpdate k f m) = pydictKeys m := by
  unfold pydictKeys pydictUpdate
  rw [List.map_map]
  apply List.map_congr_left
  intro p _
  by_cases hp : p.1 = k
  · simp [Function.comp, beq_iff_eq.mpr hp]
  · simp [Function.comp, beq_eq_false_iff_ne.mpr hp]

/-- Per-key characterization of `scan_repos`: a key visited by the
completion order gets exactly its own scan outcome written into the
findings field of its existing entry; nothing else changes. -/
theorem scan_repos_get (outcome : String → Except String (List F))
    (order : List String) (repos : List (String × GithubEntry F)) (d : String) :
    pydictGet d (scan_repos outcome order repos) =
      if d ∈ order then
        (pydictGet d repos).map
          (fun e => { e with trufflehog_findings := some (scanStepValue (outcome d)) })
      else pydictGet d repos := by
  unfold scan_repos
  induction order generalizing repos with
  | nil => simp
  | cons r rest ih =>
    rw [List.foldl_cons, ih]
    by_cases hd : d = r
    · subst hd
      by_cases hmem : d ∈ rest
      · simp only [hmem, if_true, List.mem_cons, true_or]
        rw [pydictGet_update_self]
        cases pydictGet d repos <;> rfl
      · simp only [hmem, if_false, List.mem_cons, true_or, if_true]
        rw [pydictGet_update_self]
    · by_cases hmem : d ∈ rest
      · have : d ∈ r :: rest := List.mem_cons_of_mem r hmem
        simp only [hmem, if_true, this]
        rw [pydictGet_update_ne d r _ repos hd]
      · have : ¬ d ∈ r :: rest := by
          simp [List.mem_cons, hd, hmem]
        simp only [hmem, if_false, this]
        rw [pydictGet_update_ne d r _ repos hd]

/-- `scan_repos` never adds or removes a key, whatever the completion
order. -/
theorem scan_repos_keys (outcome : String → Except String (List F))
    (order : List String) (repos : List (String × GithubEntry F)) :
    pydictKeys (scan_repos outcome order repos) = pydictKeys repos := by
  unfold scan_repos
  induction order generalizing repos with
  | nil => rfl
  | cons r rest ih =>
    rw [List.foldl_cons, ih, pydictKeys_update]

/-! ## `_github_osint` reasoning pass (`agent.py`) -/

/-- The loop body of `_github_osint` for one repo (same `try/except` shape
as the domain loop, but the stored entry has only `confidence` and
`reason`). -/
def githubVerdictEntry (resp : OracleResponse) (repo : String) :
    Option (GithubEntry F) :=
  match pullConfidence resp repo with
  | .error _ => some ⟨errSentinel, some errSentinel, none⟩
  | .ok (c, r) =>
    match c with
    | some cv => if cv = "yes" ∨ cv = "maybe" then some ⟨cv, r, none⟩ else none
    | none => none

/-- The reasoning-pass loop of `_github_osint`: for each discovered repo,
fetch its README (`fetch_github_readme`, an external HTTP call modelled by
the parameter `readme`; it returns page text or an error-message string,
never raises), ask the oracle, and keep `yes`/`maybe`/exception verdicts. -/
def githubReasoningPass (readme : String → String)
    (oracle : String → String → OracleResponse) (repos : List String) :
    List (String × GithubEntry F) :=
  repos.foldl
    (fun final_report repo =>
      match githubVerdictEntry (F := F) (oracle repo (readme repo)) repo with
      | some entry => pydictInsert repo entry final_report
      | none => final_report)
    []

/-- `Agent._github_osint` from the discovered repo list on: reasoning pass,
then `scan_repos` over the keys of the resulting report (the completion
order of the scan pool is `order`). -/
def github_osint (readme : String → String)
    (oracle : String → String → OracleResponse)
    (outcome : String → Except String (List F)) (order : List String)
    (repos : List String) : List (String × GithubEntry F) :=
  scan_repos outcome order (githubReasoningPass readme oracle repos)

/-! ## Domain/URL extraction (`tools.py` / `main.py`, `ExtractDomainsTool.forward`)

The tool runs `re.findall` with the pattern
`https?://[^\s)"\x27<>]+|www\.[^\s)"\x27<>]+` (IGNORECASE), then for each
match prepends `http://` unless the match `startswith("http")`
(case-sensitively), takes `urlparse(url).hostname`, lower-cases it and adds
it to a set. We embed the regex scan (left-to-right, first alternative
preferred, greedy `+`; the only optional piece, `s?`, never needs
backtracking because `://` cannot start with `s`) and the hostname
extraction of CPython's `urlsplit` (scheme split at the first `:` when the
prefix is scheme-shaped, netloc after `//` up to `/?#`, userinfo dropped
after the last `@`, port dropped after `:`, bracket form for IPv6,
lower-cased). Python's `\s` and `str.lower` are taken on the ASCII range. -/

/-- A character excluded by the class `[^\s)"\x27<>]` (34 and 39 are the
double and single quote). -/
def isStopChar (c : Char) : Bool :=
  pyIsSpace c || c = ')' || c = Char.ofNat 34 || c = Char.ofNat 39 ||
    c = '<' || c = '>'

/-- Case-insensitive character comparison (regex IGNORECASE, ASCII). -/
def ciEq (a b : Char) : Bool := a.toLower = b.toLower

/-- Python `str.startswith` (case-sensitive). -/
def pyStartswith : List Char → List Char → Bool
  | [], _ => true
  | _ :: _, [] => false
  | p :: ps, c :: cs => if p = c then pyStartswith ps cs else false

/-- Match a literal pattern case-insensitively at the head of the input;
return the matched input characters and the remainder. -/
def matchLit : List Char → List Char → Option (List Char × List Char)
  | [], s => some ([], s)
  | _ :: _, [] => none
  | p :: ps, c :: cs =>
    if ciEq p c then
      match matchLit ps cs with
      | some (m, r) => some (c :: m, r)
      | none => none
    else none

/-- Greedy match of `[^\s)"\x27<>]*`: longest prefix without a stop char. -/
def takeClass : List Char → List Char × List Char
  | [] => ([], [])
  | c :: cs =>
    if isStopChar c then ([], c :: cs)
    else
      let (m, r) := takeClass cs
      (c :: m, r)

/-- First regex alternative `https?://[^\s)"\x27<>]+` at this position. -/
def matchHttpAlt (s : List Char) : Option (List Char × List Char) :=
  match matchLit "http".toList s with
  | some (m1, r1) =>
    let sr :=
      match r1 with
      | c :: cs => if ciEq 's' c then ([c], cs) else (([] : List Char), r1)
      | [] => (([] : List Char), r1)
    match matchLit "://".toList sr.2 with
    | some (m3, r3) =>
      let (body, rest) := takeClass r3
      match body with
      | [] => none
      | _ :: _ => some (m1 ++ sr.1 ++ m3 ++ body, rest)
    | none => none
  | none => none

/-- Second regex alternative `www\.[^\s)"\x27<>]+` at this position. -/
def matchWwwAlt (s : List Char) : Option (List Char × List Char) :=
  match matchLit "www.".toList s with
  | some (m1, r1) =>
    let (body, rest) := takeClass r1
    match body with
    | [] => none
    | _ :: _ => some (m1 ++ body, rest)
  | none => none

/-- The alternation, first branch preferred. -/
def matchUrlAt (s : List Char) : Option (List Char × List Char) :=
  match matchHttpAlt s with
  | some x => some x
  | none => matchWwwAlt s

/-- `re.findall` scan: at each position take the match if one starts here
(continuing after it), else advance one character. Fuel is the input
length; every step consumes at least one character (a match is non-empty),
so the fuel is never exhausted early. -/
def urlFindallAux : Nat → List Char → List (List Char)
  | 0, _ => []
  | _ + 1, [] => []
  | fuel + 1, c :: cs =>
    match matchUrlAt (c :: cs) with
    | some (m, rest) => m :: urlFindallAux fuel rest
    | none => urlFindallAux fuel cs

def urlFindall (s : List Char) : List (List Char) :=
  urlFindallAux s.length s

/-- Split a list at the first occurrence of `ch` (Python `partition`):
`none` when `ch` does not occur. -/
def splitAtFirst (ch : Char) : List Char → Option (List Char × List Char)
  | [] => none
  | c :: cs =>
    if c = ch then some ([], cs)
    else
      match splitAtFirst ch cs with
      | some (pre, post) => some (c :: pre, post)
      | none => none

/-- A character allowed in a URL scheme (`scheme_chars` of `urllib.parse`). -/
def isSchemeChar (c : Char) : Bool :=
  c.isAlphanum || c = '+' || c = '-' || c = '.'

/-- `urlsplit` scheme handling: when the text before the first `:` is a
well-formed scheme, the URL continues after the colon; otherwise the whole
text is kept. -/
def stripScheme (u : List Char) : List Char :=
  match splitAtFirst ':' u with
  | some (pre, post) =>
    match pre with
    | [] => u
    | c :: _ => if c.isAlpha && pre.all isSchemeChar then post else u
  | none => u

/-- `urlsplit` netloc: after a leading `//`, up to the first `/`, `?` or
`#`; empty when the remainder does not start with `//`. -/
def netlocOf : List Char → List Char
  | '/' :: '/' :: rest =>
    rest.takeWhile (fun c => ¬ (c = '/' ∨ c = '?' ∨ c = '#'))
  | _ => []

/-- `urlsplit`'s `_hostinfo`: drop userinfo (after the last `@`), then the
port (after `:`, bracket-aware), and lower-case; `none` for an empty
hostname. -/
def hostnameFromNetloc (netloc : List Char) : Option String :=
  let hostinfo := (netloc.reverse.takeWhile (fun c => ¬ c = '@')).reverse
  let hostname :=
    match splitAtFirst '[' hostinfo with
    | some (_, bracketed) => bracketed.takeWhile (fun c => ¬ c = ']')
    | none => hostinfo.takeWhile (fun c => ¬ c = ':')
  match hostname with
  | [] => none
  | _ :: _ => some (String.mk (hostname.map Char.toLower))

/-- `urlparse(url).hostname` (already lower-cased by the property). -/
def urlparseHostname (url : List Char) : Option String :=
  hostnameFromNetloc (netlocOf (stripScheme url))

/-- One iteration of the `for url in urls` loop of
`ExtractDomainsTool.forward`: reassign `url = "http://" + url` unless it
`startswith("http")`, take `urlparse(url).hostname`, and on success add the
lower-cased hostname to the set (`domains.add`, modelled as a
membership-checked append). -/
def extractStep (domains : List String) (url : List Char) : List String :=
  match urlparseHostname
      (if ¬ pyStartswith "http".toList url then "http://".toList ++ url else url) with
  | some hostname =>
    if hostname ∈ domains then domains else domains ++ [hostname]
  | none => domains

/-- `ExtractDomainsTool.forward`: find URL-like strings, normalize each to
have a scheme, parse out the hostname, lower-case and collect into a set
(modelled as a list without duplicates, in first-insertion order). -/
def extract_domains (text : String) : List String :=
  (urlFindall text.toList).foldl extractStep []

theorem toNat_ofNat_small (n : Nat) (h : n < 55296) : (Char.ofNat n).toNat = n := by
  rw [Char.ofNat]
  rw [dif_pos (Or.inl h)]
  simp [Char.ofNatAux, Char.toNat, UInt32.ofNat', UInt32.toNat, BitVec.toNat_ofNatLt]

theorem charToLower_idem (c : Char) : c.toLower.toLower = c.toLower := by
  unfold Char.toLower
  by_cases h : c.toNat ≥ 65 ∧ c.toNat ≤ 90
  · rw [if_pos h]
    have ht : (Char.ofNat (c.toNat + 32)).toNat = c.toNat + 32 :=
      toNat_ofNat_small _ (by omega)
    rw [ht]
    rw [if_neg (by omega)]
  · rw [if_neg h, if_neg h]

/-- Every hostname the extractor produces is already lower-cased
character-by-character. -/
theorem urlparseHostname_lowercased (url : List Char) (h : String)
    (hh : urlparseHostname url = some h) : ∀ c ∈ h.data, c.toLower = c := by
  unfold urlparseHostname hostnameFromNetloc at hh
  set hostinfo := (((netlocOf (stripScheme url)).reverse.takeWhile
    (fun c => ¬ c = '@')).reverse) with hdef
  rcases hsp : splitAtFirst '[' hostinfo with _ | pr
  · simp only [hsp] at hh
    rcases hcase : hostinfo.takeWhile (fun c => ¬ c = ':') with _ | ⟨c₀, cs⟩
    · rw [hcase] at hh; exact absurd hh (by simp)
    · rw [hcase] at hh
      simp only [Option.some_inj] at hh
      subst hh
      intro c hc
      simp only [String.data] at hc
      rcases List.mem_map.mp hc with ⟨c', _, hcl⟩
      subst hcl
      exact charToLower_idem c'
  · simp only [hsp] at hh
    rcases hcase : pr.2.takeWhile (fun c => ¬ c = ']') with _ | ⟨c₀, cs⟩
    · rw [hcase] at hh; exact absurd hh (by simp)
    · rw [hcase] at hh
      simp only [Option.some_inj] at hh
      subst hh
      intro c hc
      simp only [String.data] at hc
      rcases List.mem_map.mp hc with ⟨c', _, hcl⟩
      subst hcl
      exact charToLower_idem c'

/-- The extractor's accumulator only ever grows by membership-checked
appends, so the result is duplicate-free and all elements come from
`urlparseHostname`. -/
theorem extractStep_inv (domains : List String) (url : List Char)
    (h1 : domains.Nodup) (h2 : ∀ s ∈ domains, ∀ c ∈ s.data, c.toLower = c) :
    (extractStep domains url).Nodup ∧
      ∀ s ∈ extractStep domains url, ∀ c ∈ s.data, c.toLower = c := by
  unfold extractStep
  rcases hhost : urlparseHostname
      (if ¬ pyStartswith "http".toList url then "http://".toList ++ url else url)
    with _ | hostname
  · exact ⟨h1, h2⟩
  · by_cases hmem : hostname ∈ domains
    · simp only [hmem, if_true]
      exact ⟨h1, h2⟩
    · simp only [hmem, if_false]
      refine ⟨by simp [List.nodup_append, h1, hmem], ?_⟩
      intro s hs
      rcases List.mem_append.mp hs with hin | hin
      · exact h2 s hin
      · rcases List.mem_singleton.mp hin with rfl
        exact urlparseHostname_lowercased _ s hhost

theorem extract_domains_nodup_lowercased (text : String) :
    (extract_domains text).Nodup ∧
      ∀ h ∈ extract_domains text, ∀ c ∈ h.data, c.toLower = c := by
  unfold extract_domains
  generalize urlFindall text.toList = urls
  have main : ∀ (urls : List (List Char)) (acc : List String), acc.Nodup →
      (∀ s ∈ acc, ∀ c ∈ s.data, c.toLower = c) →
      (urls.foldl extractStep acc).Nodup ∧
        ∀ s ∈ urls.foldl extractStep acc, ∀ c ∈ s.data, c.toLower = c := by
    intro urls
    induction urls with
    | nil => intro acc h1 h2; exact ⟨h1, h2⟩
    | cons u rest ih =>
      intro acc h1 h2
      rw [List.foldl_cons]
      have hstep := extractStep_inv acc u h1 h2
      exact ih _ hstep.1 hstep.2
  exact main urls [] List.nodup_nil (by intro s hs; exact absurd hs (by simp))

theorem mem_keys_of_get_some (d : String) (m : List (String × α)) (v : α)
    (h : pydictGet d m = some v) : d ∈ pydictKeys m := by
  induction m with
  | nil => exact absurd h (by simp [pydictGet])
  | cons p rest ih =>
    rw [pydictGet_cons] at h
    by_cases hp : p.1 = d
    · exact hp ▸ List.mem_cons_self p.1 (pydictKeys rest)
    · rw [if_neg hp] at h
      exact List.mem_cons_of_mem _ (ih h)

/-- An oracle response is malformed for `key` in the sense of the spec's
fail-open rule: not a mapping, or a mapping without the key. -/
def badResponse (resp : OracleResponse) (key : String) : Prop :=
  resp = .notMapping ∨
    ∃ entries, resp = .mapping entries ∧ pydictGet key entries = none

/-! ## Claims -/

/-- C1, counterexample: a well-formed oracle mapping that contains the
candidate key but states a confidence outside `{yes, maybe, no}` (here
`"banana"`) does NOT get `confidence = error`: the candidate is silently
dropped from the verdict set and absent from the final report, contradicting
the claim's required retention. -/
theorem C1_counterexample :
    pydictGet "a.com"
      (domain_osint (fun _ => Except.ok ())
        (fun d _ => OracleResponse.mapping [(d, OracleInner.obj (some "banana") (some "r"))])
        ["a.com"]) = none := by
  rfl

/-- C1, amended: for every candidate whose oracle response is a well-formed
mapping containing the candidate key but whose stated confidence is a string
other than `yes` or `maybe` (in particular any value outside
`{yes, maybe, no}`), the classifier silently drops the candidate: it is
absent from the final report, with no `error` verdict recorded. Only
responses whose extraction raises (non-mapping, missing key, non-object
value) produce `confidence = error` with retention. -/
theorem C1_amended_dropped (whoisLookup : String → Except String α)
    (oracle : String → WhoisValue α → OracleResponse)
    (initial_domains : List String) (d : String)
    (hmem : d ∈ initial_domains)
    (entries : List (String × OracleInner)) (c : String) (r : Option String)
    (hresp : oracle d (get_whois_data whoisLookup d).2 = .mapping entries)
    (hkey : pydictGet d entries = some (.obj (some c) r))
    (hyes : c ≠ "yes") (hmaybe : c ≠ "maybe") :
    pydictGet d (domain_osint whoisLookup oracle initial_domains) = none := by
  rw [domain_osint_get, if_pos hmem]
  simp only [domainVerdictEntry, pullConfidence, hresp, hkey]
  simp [hyes, hmaybe]

/-- Witness for C1's amended theorem at a concrete run. -/
theorem C1_witness :
    pydictGet "w.net"
      (domain_osint (fun _ => Except.ok (0 : Nat))
        (fun d _ => OracleResponse.mapping [(d, OracleInner.obj (some "unsure") none)])
        ["w.net"]) = none :=
  C1_amended_dropped (fun _ => Except.ok 0)
    (fun d _ => OracleResponse.mapping [(d, OracleInner.obj (some "unsure") none)])
    ["w.net"] "w.net" (by decide)
    [("w.net", OracleInner.obj (some "unsure") none)] "unsure" none
    rfl rfl (by decide) (by decide)

/-- C2: the WHOIS enrichment returns a mapping with exactly one entry per
input domain (duplicate-free keys, a key iff an input domain), the entry is
the lookup's result, a raising lookup yields the failure sentinel string
instead of a missing key, and the stage is a total function (no lookup
exception propagates: raises are consumed by `get_whois_data`). -/
theorem C2_enrichment_total (whoisLookup : String → Except String α)
    (domains : List String) :
    (pydictKeys (fetch_whois_concurrently whoisLookup domains)).Nodup ∧
    (∀ d, d ∈ domains →
      pydictGet d (fetch_whois_concurrently whoisLookup domains) =
        some (get_whois_data whoisLookup d).2) ∧
    (∀ d msg, d ∈ domains → whoisLookup d = .error msg →
      pydictGet d (fetch_whois_concurrently whoisLookup domains) =
        some (.sentinel "ERROR - MANUALLY VERIFY")) ∧
    (∀ d, pydictGet d (fetch_whois_concurrently whoisLookup domains) ≠ none →
      d ∈ domains) := by
  refine ⟨fetch_whois_keys_nodup whoisLookup domains, ?_, ?_, ?_⟩
  · intro d hd
    rw [fetch_whois_get, if_pos hd]
  · intro d msg hd herr
    rw [fetch_whois_get, if_pos hd]
    unfold get_whois_data
    rw [herr]
  · intro d hne
    by_contra hnot
    rw [fetch_whois_get, if_neg hnot] at hne
    exact hne rfl

/-- Witness for C2 at a concrete run with one failing lookup. -/
theorem C2_witness :
    pydictGet "b.com"
      (fetch_whois_concurrently
        (fun d => if d = "a.com" then Except.ok (7 : Nat) else Except.error "timeout")
        ["a.com", "b.com"]) =
      some (.sentinel "ERROR - MANUALLY VERIFY") :=
  (C2_enrichment_total
      (fun d => if d = "a.com" then Except.ok (7 : Nat) else Except.error "timeout")
      ["a.com", "b.com"]).2.2.1 "b.com" "timeout" (by decide) rfl

/-- C3: a non-mapping oracle response, or a mapping omitting the candidate
key, raises inside the `try` block, so the candidate gets
`confidence = error` and stays in the final report; in the domain pipeline
the entry still carries the candidate's whois enrichment, and in the GitHub
pipeline the per-candidate loop stores the same error entry. -/
theorem C3_fail_open :
    (∀ (α : Type) (whoisLookup : String → Except String α)
      (oracle : String → WhoisValue α → OracleResponse)
      (initial_domains : List String) (d : String),
      d ∈ initial_domains →
      badResponse (oracle d (get_whois_data whoisLookup d).2) d →
      pydictGet d (domain_osint whoisLookup oracle initial_domains) =
        some ⟨errSentinel, some errSentinel, (get_whois_data whoisLookup d).2⟩) ∧
    (∀ (F : Type) (resp : OracleResponse) (repo : String),
      badResponse resp repo →
      githubVerdictEntry (F := F) resp repo =
        some ⟨errSentinel, some errSentinel, none⟩) := by
  constructor
  · intro α whoisLookup oracle initial_domains d hmem hbad
    rw [domain_osint_get, if_pos hmem]
    rcases hbad with hnm | ⟨entries, hm, hnone⟩
    · simp only [domainVerdictEntry, pullConfidence, hnm]
    · simp only [domainVerdictEntry, pullConfidence, hm, hnone]
  · intro F resp repo hbad
    rcases hbad with hnm | ⟨entries, hm, hnone⟩
    · simp only [githubVerdictEntry, pullConfidence, hnm]
    · simp only [githubVerdictEntry, pullConfidence, hm, hnone]

/-- Witness for C3: a non-mapping response on a concrete run retains the
candidate with the error sentinel and its (failed-lookup) whois value. -/
theorem C3_witness :
    pydictGet "c.org"
      (domain_osint (fun _ => (Except.error "down" : Except String String))
        (fun _ _ => OracleResponse.notMapping) ["c.org"]) =
      some ⟨errSentinel, some errSentinel,
        WhoisValue.sentinel "ERROR - MANUALLY VERIFY"⟩ :=
  C3_fail_open.1 String (fun _ => (Except.error "down" : Except String String))
    (fun _ _ => OracleResponse.notMapping) ["c.org"] "c.org"
    (by decide) (Or.inl rfl)

/-- C4: a candidate appears in the final domain report iff its verdict is
retained, i.e. iff its stated confidence is `yes` or `maybe`, or its verdict
is the `error` verdict assigned on classification failure; in particular
`no` (and any other stated value) never appears. -/
theorem C4_confidence_filter (whoisLookup : String → Except String α)
    (oracle : String → WhoisValue α → OracleResponse)
    (initial_domains : List String) (d : String)
    (hmem : d ∈ initial_domains) :
    (∃ e, pydictGet d (domain_osint whoisLookup oracle initial_domains) = some e) ↔
      (verdictOf (oracle d (get_whois_data whoisLookup d).2) d).retained = true := by
  rw [domain_osint_get, if_pos hmem]
  rcases hpc : pullConfidence (oracle d (get_whois_data whoisLookup d).2) d
    with e | ⟨c, r⟩
  · simp [domainVerdictEntry, verdictOf, hpc, Verdict.retained]
  · rcases c with _ | cv
    · simp [domainVerdictEntry, verdictOf, hpc, Verdict.retained]
    · by_cases hcv : cv = "yes" ∨ cv = "maybe"
      · rcases hcv with h | h <;>
          simp [domainVerdictEntry, verdictOf, hpc, Verdict.retained, h]
      · push_neg at hcv
        simp [domainVerdictEntry, verdictOf, hpc, Verdict.retained, hcv.1, hcv.2]

/-- Witness for C4: a `no` verdict is absent, a `maybe` verdict is present,
on concrete runs. -/
theorem C4_witness :
    (¬ ∃ e, pydictGet "x.io"
      (domain_osint (fun _ => Except.ok ())
        (fun d _ => OracleResponse.mapping [(d, OracleInner.obj (some "no") none)])
        ["x.io"]) = some e) ∧
    (∃ e, pydictGet "y.io"
      (domain_osint (fun _ => Except.ok ())
        (fun d _ => OracleResponse.mapping [(d, OracleInner.obj (some "maybe") none)])
        ["y.io"]) = some e) := by
  constructor
  · intro hex
    have := (C4_confidence_filter (fun _ => Except.ok ())
      (fun d _ => OracleResponse.mapping [(d, OracleInner.obj (some "no") none)])
      ["x.io"] "x.io" (by decide)).mp hex
    exact absurd this (by decide)
  · exact (C4_confidence_filter (fun _ => Except.ok ())
      (fun d _ => OracleResponse.mapping [(d, OracleInner.obj (some "maybe") none)])
      ["y.io"] "y.io" (by decide)).mpr (by decide)

/-- C5, counterexample: on the claim's own example text the extractor keeps
the `www.` prefix (`urlparse("http://www.Foo.org").hostname` is
`"www.foo.org"`), so the produced set is
`{"example.com", "www.foo.org"}`, not `{"example.com", "foo.org"}`. -/
theorem C5_counterexample :
    extract_domains "https://Example.COM/page and www.Foo.org" =
      ["example.com", "www.foo.org"] ∧
    "foo.org" ∉ extract_domains "https://Example.COM/page and www.Foo.org" := by
  constructor
  · rfl
  · decide

/-- C5, amended: the extractor returns a deduplicated set of lower-cased
hostnames pulled from http/https URLs and www-prefixed references, where a
www-prefixed reference keeps its `www.` label: the input containing
`https://Example.COM/page` and `www.Foo.org` yields exactly
`{"example.com", "www.foo.org"}`. -/
theorem C5_extraction :
    (∀ text : String, (extract_domains text).Nodup ∧
      ∀ h ∈ extract_domains text, ∀ c ∈ h.data, c.toLower = c) ∧
    extract_domains "https://Example.COM/page and www.Foo.org" =
      ["example.com", "www.foo.org"] := by
  refine ⟨extract_domains_nodup_lowercased, ?_⟩
  rfl

/-- Witness for C5's general part at a concrete input. -/
theorem C5_witness :
    (extract_domains "visit WWW.Mixed.CASE.org now").Nodup ∧
      (∀ c ∈ ("www.mixed.case.org" : String).data, c.toLower = c) :=
  ⟨(C5_extraction.1 "visit WWW.Mixed.CASE.org now").1,
    (C5_extraction.1 "visit WWW.Mixed.CASE.org now").2 "www.mixed.case.org" (by decide)⟩

/-- C6, counterexample: two runs of the GitHub pipeline that differ only in
the fetched README content produce identical final reports, and the
surviving repo's entry (confidence, reason, scan findings — nothing else)
exists in both; hence a repository ReportEntry does not include its fetched
README enrichment, contradicting the claim's repository half. -/
theorem C6_counterexample :
    ("README A" : String) ≠ "README B" ∧
    github_osint (F := Unit) (fun _ => "README A")
        (fun repo _ => OracleResponse.mapping
          [(repo, OracleInner.obj (some "yes") (some "affiliated"))])
        (fun _ => Except.ok []) ["https://github.com/x/r"] ["https://github.com/x/r"] =
      github_osint (fun _ => "README B")
        (fun repo _ => OracleResponse.mapping
          [(repo, OracleInner.obj (some "yes") (some "affiliated"))])
        (fun _ => Except.ok []) ["https://github.com/x/r"] ["https://github.com/x/r"] ∧
    pydictGet "https://github.com/x/r"
      (github_osint (F := Unit) (fun _ => "README A")
        (fun repo _ => OracleResponse.mapping
          [(repo, OracleInner.obj (some "yes") (some "affiliated"))])
        (fun _ => Except.ok []) ["https://github.com/x/r"] ["https://github.com/x/r"]) =
      some ⟨"yes", some "affiliated", some FindingsField.emptyDict⟩ := by
  refine ⟨by decide, rfl, rfl⟩

/-- C6, amended: every ReportEntry carries its confidence and reason; for
every surviving domain candidate the entry also carries its WHOIS
enrichment, while repository entries carry only confidence, reason and scan
findings — the fetched README is an input to the oracle, not part of the
entry (the GitHub report is invariant under changes of README content when
the oracle's responses are fixed). -/
theorem C6_enrichment_attachment :
    (∀ (α : Type) (whoisLookup : String → Except String α)
      (oracle : String → WhoisValue α → OracleResponse)
      (initial_domains : List String) (d : String) (e : DomainEntry α),
      pydictGet d (domain_osint whoisLookup oracle initial_domains) = some e →
      e.whois = (get_whois_data whoisLookup d).2) ∧
    (∀ (F : Type) (readme₁ readme₂ : String → String)
      (oresp : String → OracleResponse)
      (outcome : String → Except String (List F)) (order repos : List String),
      github_osint readme₁ (fun repo _ => oresp repo) outcome order repos =
        github_osint readme₂ (fun repo _ => oresp repo) outcome order repos) := by
  constructor
  · intro α whoisLookup oracle initial_domains d e he
    rw [domain_osint_get] at he
    by_cases hmem : d ∈ initial_domains
    · rw [if_pos hmem] at he
      rcases hpc : pullConfidence (oracle d (get_whois_data whoisLookup d).2) d
        with u | ⟨c, r⟩
      · simp only [domainVerdictEntry, hpc, Option.some.injEq] at he
        rw [← he]
      · rcases c with _ | cv
        · simp only [domainVerdictEntry, hpc] at he
          exact absurd he (by simp)
        · by_cases hcv : cv = "yes" ∨ cv = "maybe"
          · simp only [domainVerdictEntry, hpc, if_pos hcv, Option.some.injEq] at he
            rw [← he]
          · simp only [domainVerdictEntry, hpc, if_neg hcv] at he
            exact absurd he (by simp)
    · rw [if_neg hmem] at he
      exact absurd he (by simp)
  · intro F readme₁ readme₂ oresp outcome order repos
    rfl

/-- Witness for C6's domain half at a concrete run. -/
theorem C6_witness :
    (DomainEntry.whois ⟨"yes", some "ok", WhoisValue.record (5 : Nat)⟩) =
      (get_whois_data (fun _ => Except.ok (5 : Nat)) "d.com").2 :=
  C6_enrichment_attachment.1 Nat (fun _ => Except.ok 5)
    (fun d _ => OracleResponse.mapping [(d, OracleInner.obj (some "yes") (some "ok"))])
    ["d.com"] "d.com" ⟨"yes", some "ok", WhoisValue.record 5⟩ rfl

/-- C7: a non-zero trufflehog exit code makes `scan_repo_with_trufflehog`
return the empty findings list (no exception escapes: the embedded scanner
is a total function), and in `scan_repos` a repository's result depends
only on its own scan outcome, so one repo's failure leaves every other
repo's entry unchanged. -/
theorem C7_scanner_error_handling :
    (∀ (F : Type) (runTool : String → String → ProcResult)
      (parse : String → Option F) (url os : String),
      (runTool (trufflehogCommand os) url).returncode ≠ 0 →
      scan_repo_with_trufflehog runTool parse url os = []) ∧
    (∀ (F : Type) (s₁ s₂ : String → Except String (List F))
      (order : List String) (repos : List (String × GithubEntry F)) (r : String),
      (∀ x, x ≠ r → s₁ x = s₂ x) →
      ∀ d, d ≠ r →
        pydictGet d (scan_repos s₁ order repos) =
          pydictGet d (scan_repos s₂ order repos)) := by
  constructor
  · intro F runTool parse url os hrc
    unfold scan_repo_with_trufflehog
    simp only [if_pos hrc]
  · intro F s₁ s₂ order repos r hagree d hd
    rw [scan_repos_get, scan_repos_get, hagree d hd]

/-- Witness for C7 at a concrete failing scan and a concrete two-repo
batch. -/
theorem C7_witness :
    scan_repo_with_trufflehog (fun _ _ => ⟨1, "", "network error"⟩)
      (fun _ => some (0 : Nat)) "https://github.com/x/r" "linux" = [] ∧
    pydictGet "r2"
      (scan_repos (fun x => if x = "r1" then Except.error "boom" else Except.ok [(7 : Nat)])
        ["r1", "r2"] [("r1", ⟨"yes", none, none⟩), ("r2", ⟨"maybe", none, none⟩)]) =
      pydictGet "r2"
        (scan_repos (fun x => if x = "r1" then Except.ok [(9 : Nat)] else Except.ok [(7 : Nat)])
          ["r1", "r2"] [("r1", ⟨"yes", none, none⟩), ("r2", ⟨"maybe", none, none⟩)]) :=
  ⟨C7_scanner_error_handling.1 Nat (fun _ _ => ⟨1, "", "network error"⟩)
      (fun _ => some 0) "https://github.com/x/r" "linux" (by decide),
    C7_scanner_error_handling.2 Nat
      (fun x => if x = "r1" then Except.error "boom" else Except.ok [7])
      (fun x => if x = "r1" then Except.ok [9] else Except.ok [7])
      ["r1", "r2"] [("r1", ⟨"yes", none, none⟩), ("r2", ⟨"maybe", none, none⟩)]
      "r1" (fun x hx => by simp [hx]) "r2" (by decide)⟩

/-- C8: a successful scan parses standard output as newline-delimited
records, each line independently and in input order (the loop equals an
in-order `filterMap`); a two-line output with both lines parseable yields
exactly those two findings in order, and an unparseable middle line is
skipped without aborting the remaining lines. -/
theorem C8_line_parsing :
    (∀ (F : Type) (runTool : String → String → ProcResult)
      (parse : String → Option F) (url os : String),
      (runTool (trufflehogCommand os) url).returncode = 0 →
      scan_repo_with_trufflehog runTool parse url os =
        parseTrufflehogOutput parse (runTool (trufflehogCommand os) url).stdout) ∧
    (∀ (F : Type) (parse : String → Option F) (stdout : String),
      parseTrufflehogOutput parse stdout =
        ((pySplit '\n' (pyStrip stdout.toList)).map String.mk).filterMap
          (fun line => if line ≠ "" then parse line else none)) ∧
    (∀ (F : Type) (parse : String → Option F) (stdout l₁ l₂ : String) (v₁ v₂ : F),
      (pySplit '\n' (pyStrip stdout.toList)).map String.mk = [l₁, l₂] →
      parse l₁ = some v₁ → parse l₂ = some v₂ → l₁ ≠ "" → l₂ ≠ "" →
      parseTrufflehogOutput parse stdout = [v₁, v₂]) ∧
    (∀ (F : Type) (parse : String → Option F) (stdout l₁ l₂ l₃ : String) (v₁ v₃ : F),
      (pySplit '\n' (pyStrip stdout.toList)).map String.mk = [l₁, l₂, l₃] →
      parse l₁ = some v₁ → parse l₂ = none → parse l₃ = some v₃ →
      l₁ ≠ "" → l₃ ≠ "" →
      parseTrufflehogOutput parse stdout = [v₁, v₃]) := by
  refine ⟨?_, ?_, ?_, ?_⟩
  · intro F runTool parse url os hrc
    unfold scan_repo_with_trufflehog
    rw [if_neg (by simp [hrc])]
  · intro F parse stdout
    exact parseTrufflehogOutput_eq_filterMap parse stdout
  · intro F parse stdout l₁ l₂ v₁ v₂ hsplit h₁ h₂ hl₁ hl₂
    rw [parseTrufflehogOutput_eq_filterMap, hsplit]
    simp [hl₁, hl₂, h₁, h₂]
  · intro F parse stdout l₁ l₂ l₃ v₁ v₃ hsplit h₁ h₂ h₃ hl₁ hl₃
    rw [parseTrufflehogOutput_eq_filterMap, hsplit]
    by_cases hl₂ : l₂ = ""
    · simp [hl₁, hl₂, hl₃, h₁, h₃]
    · simp [hl₁, hl₂, hl₃, h₁, h₂, h₃]

/-- Witness for C8 at a concrete three-line output with an unparseable
middle line. -/
theorem C8_witness :
    parseTrufflehogOutput
      (fun s => if s = "rec1" then some (1 : Nat)
        else if s = "rec2" then some 2 else none)
      "rec1\nbad line\nrec2" = [1, 2] :=
  C8_line_parsing.2.2.2 Nat
    (fun s => if s = "rec1" then some 1 else if s = "rec2" then some 2 else none)
    "rec1\nbad line\nrec2" "rec1" "bad line" "rec2" 1 2
    rfl rfl rfl rfl (by decide) (by decide)

/-- C10: `scan_repos` returns the input report with, for every repository
key, the single field `trufflehog_findings` newly assigned — the findings
list when the scan found something, the empty dict when it found nothing or
the worker raised — and with every pre-existing field (`confidence`,
`reason`) and the key set left unchanged. -/
theorem C10_scan_repos_frame (outcome : String → Except String (List F))
    (repos : List (String × GithubEntry F)) (d : String) (e : GithubEntry F)
    (hd : pydictGet d repos = some e) :
    pydictKeys (scan_repos outcome (pydictKeys repos) repos) = pydictKeys repos ∧
    pydictGet d (scan_repos outcome (pydictKeys repos) repos) =
      some { confidence := e.confidence, reason := e.reason,
             trufflehog_findings := some (scanStepValue (outcome d)) } ∧
    (∀ f fs, outcome d = .ok (f :: fs) → scanStepValue (outcome d) = .results (f :: fs)) ∧
    (outcome d = .ok [] → scanStepValue (outcome d) = .emptyDict) ∧
    (∀ msg, outcome d = .error msg → scanStepValue (outcome d) = .emptyDict) := by
  refine ⟨scan_repos_keys outcome _ repos, ?_, ?_, ?_, ?_⟩
  · rw [scan_repos_get, if_pos (mem_keys_of_get_some d repos e hd), hd]
    rfl
  · intro f fs hok
    unfold scanStepValue
    rw [hok]
  · intro hok
    unfold scanStepValue
    rw [hok]
  · intro msg herr
    unfold scanStepValue
    rw [herr]

/-- Witness for C10 at a concrete one-repo report with findings. -/
theorem C10_witness :
    pydictGet "r"
      (scan_repos (fun _ => Except.ok [(42 : Nat)])
        (pydictKeys [("r", (⟨"yes", some "ok", none⟩ : GithubEntry Nat))])
        [("r", ⟨"yes", some "ok", none⟩)]) =
      some ⟨"yes", some "ok", some (FindingsField.results [42])⟩ :=
  (C10_scan_repos_frame (fun _ => Except.ok [42])
    [("r", ⟨"yes", some "ok", none⟩)] "r" ⟨"yes", some "ok", none⟩ rfl).2.1

end LookerBot
